import Mathlib

/-!
Verification of `learning_ai_opponent.py` (SuddenDice).

Shallow embedding conventions:
* Python floats are modelled as rationals `ℚ` (all state arithmetic in the
  source is exact at this granularity: additions of literals); the only
  genuinely real-valued computation is the UCB score, which uses a square
  root and is modelled in `ℝ`.
* Python dicts are association lists `List (String × α)` with first-match
  lookup; insertion order is preserved as in CPython.
* Sites that call the global `random` module take the drawn values as
  explicit inputs (record `Draws`); each call site appears at most once per
  engine call, so one field per site models the joint draw faithfully.
* `numpy` matrices are `Matrix (Fin d) (Fin d) ℚ` (resp. `ℝ`); `np.linalg.inv`
  is modelled by the adjugate formula, which agrees with the true inverse on
  invertible matrices (the only matrices the source ever inverts, see the
  positive-definiteness invariant) and is total.
-/

namespace SuddenDice

/-- Claims and rolls are pairs of die values (Python tuples of ints). -/
abbrev Claim : Type := ℕ × ℕ

/-! ## BetaTracker (source lines 7-22) -/

/-- `BetaTracker` dataclass: two pseudo-counters of a Beta posterior. -/
structure BetaTracker where
  alpha : ℚ
  beta : ℚ
deriving DecidableEq, Repr

/-- `BetaTracker.mean`: `alpha / (alpha + beta)`. -/
def BetaTracker.mean (t : BetaTracker) : ℚ :=
  t.alpha / (t.alpha + t.beta)

/-- `BetaTracker.update`: increment `alpha` on success else `beta`.
The `thompson` method draws from a Beta distribution; draws are supplied
externally wherever it is called. -/
def BetaTracker.update (t : BetaTracker) (success : Bool) : BetaTracker :=
  if success then { t with alpha := t.alpha + 1 } else { t with beta := t.beta + 1 }

/-- Apply a sequence of `update` calls left to right. -/
def BetaTracker.applyUpdates (t : BetaTracker) (l : List Bool) : BetaTracker :=
  l.foldl BetaTracker.update t

/-! ## Python-dict operations on association lists -/

/-- First-match lookup, the read semantics of a Python dict
(keys are unique in an actual dict, so first match is the match). -/
def dlookup {α : Type} (k : String) : List (String × α) → Option α
  | [] => none
  | (k₀, v) :: rest => if k₀ = k then some v else dlookup k rest

/-- `d[k] = v`: replace the value at the key in place, or append a new entry. -/
def dictSet {α : Type} (m : List (String × α)) (k : String) (v : α) : List (String × α) :=
  match m with
  | [] => [(k, v)]
  | (k₀, v₀) :: rest => if k₀ = k then (k₀, v) :: rest else (k₀, v₀) :: dictSet rest k v

/-- `d.setdefault(k, v)`: insert `v` at `k` only if `k` is absent. -/
def dictSetdefault {α : Type} (m : List (String × α)) (k : String) (v : α) :
    List (String × α) :=
  if (dlookup k m).isSome then m else m ++ [(k, v)]

/-! ## OpponentProfile (source lines 25-36) -/

/-- `OpponentProfile` dataclass. -/
structure OpponentProfile where
  bluff_rate : List (String × BetaTracker)
  call_rate : BetaTracker
  small_raise_pref : BetaTracker
deriving DecidableEq, Repr

/-- The default profile produced by `OpponentProfile()`: bluff-rate priors
mexican (1,3), double (1,2), normal (1,1); call-rate (1,2); small-raise (1,1). -/
def defaultProfile : OpponentProfile :=
  { bluff_rate := [("mexican", ⟨1, 3⟩), ("double", ⟨1, 2⟩), ("normal", ⟨1, 1⟩)]
    call_rate := ⟨1, 2⟩
    small_raise_pref := ⟨1, 1⟩ }

/-! ## LinUCB (source lines 39-63) -/

/-- `LinUCB` state: exploration coefficient, design matrix `A`, vector `b`.
Generic in the scalar field: the engine instantiates it at `ℚ`, and the
design-matrix invariant is stated over `ℝ` (the claim speaks of arbitrary
real feature vectors). -/
structure LinUCB (F : Type) (d : ℕ) where
  alpha : F
  A : Matrix (Fin d) (Fin d) F
  b : Fin d → F

/-- `LinUCB.__init__`: `A = I`, `b = 0`. -/
def LinUCB.init (F : Type) [CommRing F] (d : ℕ) (alpha : F) : LinUCB F d :=
  { alpha := alpha, A := 1, b := fun _ => 0 }

/-- `LinUCB.update`: `A += x xᵀ`, `b += reward * x`. -/
def LinUCB.update {F : Type} [CommRing F] {d : ℕ} (l : LinUCB F d)
    (x : Fin d → F) (reward : F) : LinUCB F d :=
  { l with
    A := l.A + Matrix.vecMulVec x x
    b := fun i => l.b i + reward * x i }

/-- Fold a list of `(x, reward)` update calls over a bandit. -/
def LinUCB.runUpdates {F : Type} [CommRing F] {d : ℕ} (l : LinUCB F d)
    (us : List ((Fin d → F) × F)) : LinUCB F d :=
  us.foldl (fun acc u => acc.update u.1 u.2) l

/-- `np.linalg.inv(A)` via the adjugate formula: equals the inverse whenever
`A` is invertible (numpy raises on singular input; this model is total). -/
def LinUCB.Ainv {d : ℕ} (l : LinUCB ℚ d) : Matrix (Fin d) (Fin d) ℚ :=
  (l.A.det)⁻¹ • l.A.adjugate

/-- Keep the running maximum, replacing it only on a strictly greater score:
the semantics of Python `max(scores, key=scores.get)` over insertion order. -/
noncomputable def argmaxAux (best : String × ℝ) : List (String × ℝ) → String × ℝ
  | [] => best
  | p :: rest => argmaxAux (if p.2 > best.2 then p else best) rest

/-- First key achieving the maximal score (Python `max` raises on an empty
dict; the engine always passes two contexts, so the `[]` case is unreachable). -/
noncomputable def argmaxFirst : List (String × ℝ) → String
  | [] => ""
  | p :: rest => (argmaxAux p rest).1

/-- `LinUCB.choose`: score each context by `θᵀx + alpha·√(xᵀA⁻¹x)` with
`θ = A⁻¹ b` and return the first maximizing action together with all scores.
State is rational; the scores live in `ℝ` because of the square root. -/
noncomputable def LinUCB.choose {d : ℕ} (l : LinUCB ℚ d)
    (contexts : List (String × (Fin d → ℚ))) : String × List (String × ℝ) :=
  let Ainv := l.Ainv
  let theta := Ainv.mulVec l.b
  let scores := contexts.map fun p =>
    (p.1, ((Matrix.dotProduct theta p.2 : ℚ) : ℝ) +
      (l.alpha : ℝ) * Real.sqrt ((Matrix.dotProduct p.2 (Ainv.mulVec p.2) : ℚ) : ℝ))
  (argmaxFirst scores, scores)

/-! ## Engine state (source lines 66-85) -/

/-- The action dictionaries returned by `decide_action`. -/
inductive Action where
  | raise (claim : Claim)
  | callBluff
deriving DecidableEq, Repr

/-- `LearningAIDiceOpponent` state. The four rule functions are total fields:
the source requires them to be set (assert at the top of `decide_action`)
before any decision call. -/
structure Engine where
  compareClaims : Claim → Claim → ℤ
  nextHigherClaim : Claim → Claim
  categorizeClaim : Claim → String
  claimMatchesRoll : Claim → Claim → Bool
  profiles : List (String × OpponentProfile)
  bandit : LinUCB ℚ 9
  call_risk_bias : ℚ
  raise_bluff_cap : ℚ
  truth_bias : ℚ
  lastContext : Option (String × String × (Fin 9 → ℚ))

/-- `__init__` followed by `set_rules`: fresh engine with the given rules. -/
def freshEngine (cmp : Claim → Claim → ℤ) (nxt : Claim → Claim)
    (cat : Claim → String) (mat : Claim → Claim → Bool) : Engine :=
  { compareClaims := cmp
    nextHigherClaim := nxt
    categorizeClaim := cat
    claimMatchesRoll := mat
    profiles := []
    bandit := LinUCB.init ℚ 9 0.9
    call_risk_bias := 0.05
    raise_bluff_cap := 0.60
    truth_bias := 0.15
    lastContext := none }

/-- `self._profiles[opponent_id]` on a `defaultdict(OpponentProfile)`:
return the stored profile, inserting a fresh default one if absent. -/
def ensureProfile (m : List (String × OpponentProfile)) (id : String) :
    List (String × OpponentProfile) × OpponentProfile :=
  match dlookup id m with
  | some p => (m, p)
  | none => (m ++ [(id, defaultProfile)], defaultProfile)

/-- All values drawn from `random` during one engine call, one field per call
site (each site executes at most once per call). -/
structure Draws where
  /-- index into the list `[1, 1, 2]` for `random.choice` in `_pressure_jump_above` -/
  jump : Fin 3
  /-- `random.random()` in the truthful fast path -/
  rFast : ℚ
  /-- `random.betavariate` Thompson sample in the challenge branch -/
  thompson : ℚ
  /-- `random.random()` choosing truthful vs pressure in the raise branch -/
  rTruth2 : ℚ
  /-- `random.random()` in `_pick_pressure_claim` -/
  rPressure : ℚ

/-! ## Utilities (source lines 176-237) -/

/-- `_canonical_claim_from_roll`: the pair (max, min) of the two die values. -/
def canonicalClaimFromRoll (roll : Claim) : Claim :=
  (max roll.1 roll.2, min roll.1 roll.2)

/-- `_best_truthful_above`. -/
def bestTruthfulAbove (e : Engine) (currentClaim myRoll : Claim) : Option Claim :=
  let truth := canonicalClaimFromRoll myRoll
  if e.compareClaims truth currentClaim > 0 then some truth else none

/-- `_is_weak_truth`. -/
def isWeakTruth (e : Engine) (claim : Claim) : Bool :=
  e.categorizeClaim claim = "normal"

/-- The `extra` computed in `_pick_pressure_claim`: two sequential `if`
statements on the same draw `r`, the second overwriting the first. -/
def pressureExtra (pCall r : ℚ) : ℕ :=
  let extra : ℕ := 0
  let extra : ℕ := if pCall > 0.55 ∧ r < 0.50 then 1 else extra
  let extra : ℕ := if pCall > 0.65 ∧ r < 0.25 then 2 else extra
  extra

/-- `_pick_pressure_claim`: at least one `next_higher_claim` step from the
current claim, with 1 or 2 extra steps decided by one draw `r`. -/
def pickPressureClaim (e : Engine) (currentClaim : Claim) (allowBluff : Bool)
    (opp : OpponentProfile) (r : ℚ) : Claim :=
  let pCall := opp.call_rate.mean
  let step : ℕ := 1 + (if allowBluff then pressureExtra pCall r else 0)
  e.nextHigherClaim^[step] currentClaim

/-- `_pressure_jump_above`: 1 or 2 successor steps from the baseline,
the count drawn uniformly from the list `[1, 1, 2]`. -/
def pressureJumpAbove (e : Engine) (baseline : Claim) (jump : Fin 3) : Claim :=
  let steps : ℕ := [1, 1, 2].get jump
  e.nextHigherClaim^[steps] baseline

/-- The while loop of `_distance_from_next`: step `cur` upward while it
compares below `truth`, at most 20 times (`fuel` is `20 - steps`). -/
def stepsLoop (e : Engine) (truth : Claim) : ℕ → Claim → ℕ → ℕ
  | 0, _, steps => steps
  | fuel + 1, cur, steps =>
    if e.compareClaims cur truth < 0 then
      stepsLoop e truth fuel (e.nextHigherClaim cur) (steps + 1)
    else steps

/-- `_distance_from_next`. -/
def distanceFromNext (e : Engine) (currentClaim myRoll : Claim) : ℚ :=
  let truth := canonicalClaimFromRoll myRoll
  if e.compareClaims truth currentClaim ≤ 0 then 0
  else (stepsLoop e truth 20 currentClaim 0 : ℚ)

/-- `_step_distance` (bound 30, and 0 when `a` is not below `b`). -/
def stepDistance (e : Engine) (a b : Claim) : ℕ :=
  if e.compareClaims a b ≥ 0 then 0 else stepsLoop e b 30 a 0

/-- `_cat_onehot`. -/
def catOnehot (cat : String) : Fin 3 → ℚ :=
  ![if cat = "mexican" then 1 else 0,
    if cat = "double" then 1 else 0,
    if cat = "normal" then 1 else 0]

/-- Modelled from the spec: `_make_context` is called by `decide_action` but
its definition is not among the provided source files. Per the spec it
assembles a 9-dimensional feature vector from the 3-slot category one-hot,
the bluff-rate mean, the call-rate mean, the "truthful claim above" flag,
the step distance, the round index and the action flag; the exact ordering
is an implementation choice, kept consistent between construction and
bandit update. -/
def makeContext (onehot : Fin 3 → ℚ) (bluffMean pCallMean : ℚ) (hasTruth : Bool)
    (dist : ℚ) (roundIndex : ℕ) (flag : ℚ) : Fin 9 → ℚ :=
  ![onehot 0, onehot 1, onehot 2, bluffMean, pCallMean,
    if hasTruth then 1 else 0, dist, (roundIndex : ℚ), flag]

/-- The bluff tracker read non-destructively in `decide_action`:
`opp.bluff_rate.get(cat, BetaTracker(1, 1))` — note `.get` does not insert. -/
def bluffTrackerFor (prof : OpponentProfile) (cat : String) : BetaTracker :=
  (dlookup cat prof.bluff_rate).getD ⟨1, 1⟩

/-- The pair of context vectors built in the bandit stage of `decide_action`
(source lines 110-134): identical except for the final action flag. -/
def banditCtxPair (e : Engine) (prof : OpponentProfile) (cur myRoll : Claim)
    (hasTruth : Bool) (roundIndex : ℕ) : (Fin 9 → ℚ) × (Fin 9 → ℚ) :=
  let cat := e.categorizeClaim cur
  let catBluffMean := (bluffTrackerFor prof cat).mean
  let pCallMean := prof.call_rate.mean
  let dist := distanceFromNext e cur myRoll
  (makeContext (catOnehot cat) catBluffMean pCallMean hasTruth dist roundIndex 0,
   makeContext (catOnehot cat) catBluffMean pCallMean hasTruth dist roundIndex 1)

/-! ## decide_action (source lines 87-154) -/

/-- `decide_action`. The source guards `if choice == "CALL": ... if ev >= -0.15:`
nest two returns; here the committed challenge is the conjunction branch and
everything else falls through to the raise code, exactly as in the source. -/
noncomputable def decide_action (e : Engine) (opponentId : String)
    (currentClaim : Option Claim) (myRoll : Claim) (roundIndex : ℕ) (D : Draws) :
    Engine × Action :=
  match currentClaim with
  | none =>
    let opening := canonicalClaimFromRoll myRoll
    let opening := if isWeakTruth e opening then pressureJumpAbove e (3, 2) D.jump
                   else opening
    ({ e with lastContext := none }, Action.raise opening)
  | some cur =>
    let truthful := bestTruthfulAbove e cur myRoll
    if h : truthful.isSome ∧ D.rFast < 0.65 + e.truth_bias then
      ({ e with lastContext := none }, Action.raise (truthful.get h.1))
    else
      let pr := ensureProfile e.profiles opponentId
      let pair := banditCtxPair e pr.2 cur myRoll truthful.isSome roundIndex
      let choice := (e.bandit.choose [("CALL", pair.1), ("RAISE", pair.2)]).1
      if choice = "CALL" ∧ 2 * D.thompson - 1 - e.call_risk_bias ≥ -0.15 then
        ({ e with profiles := pr.1, lastContext := some (opponentId, "CALL", pair.1) },
         Action.callBluff)
      else
        let claim :=
          match truthful with
          | some t =>
            if D.rTruth2 < 0.7 + e.truth_bias then t
            else pickPressureClaim e cur true pr.2 D.rPressure
          | none => pickPressureClaim e cur true pr.2 D.rPressure
        ({ e with profiles := pr.1, lastContext := some (opponentId, "RAISE", pair.2) },
         Action.raise claim)

/-! ## Observation callbacks (source lines 156-174) -/

/-- The profile after `bluff_rate.setdefault(cat, BetaTracker(1,1)).update(b)`:
the returned tracker is aliased in the dict, so the entry at `cat` becomes
the updated tracker (the existing one if present, else the (1,1) default). -/
def showdownProfile (prof : OpponentProfile) (cat : String) (wasBluff : Bool) :
    OpponentProfile :=
  { prof with
    bluff_rate := dictSet (dictSetdefault prof.bluff_rate cat ⟨1, 1⟩) cat
      (BetaTracker.update ((dlookup cat prof.bluff_rate).getD ⟨1, 1⟩) wasBluff) }

/-- `observe_showdown`: defaultdict profile access, then
`bluff_rate.setdefault(cat, BetaTracker(1,1)).update(was_bluff)`. -/
def observe_showdown (e : Engine) (opponentId : String)
    (opponentClaim actualOpponentRoll : Claim) (callerIsCpu : Bool) : Engine :=
  let wasBluff := !(e.claimMatchesRoll opponentClaim actualOpponentRoll)
  let cat := e.categorizeClaim opponentClaim
  let pr := ensureProfile e.profiles opponentId
  { e with profiles := dictSet pr.1 opponentId (showdownProfile pr.2 cat wasBluff) }

/-- `observe_our_raise_resolved`. -/
def observe_our_raise_resolved (e : Engine) (opponentId : String)
    (cpuClaim cpuRoll : Claim) (opponentCalled : Bool) : Engine :=
  let pr := ensureProfile e.profiles opponentId
  let prof := { pr.2 with call_rate := pr.2.call_rate.update opponentCalled }
  { e with profiles := dictSet pr.1 opponentId prof }

/-- `observe_opponent_raise_size`. -/
def observe_opponent_raise_size (e : Engine) (opponentId : String)
    (currentClaim newClaim : Claim) : Engine :=
  let small := stepDistance e currentClaim newClaim = 1
  let pr := ensureProfile e.profiles opponentId
  let prof := { pr.2 with small_raise_pref := pr.2.small_raise_pref.update small }
  { e with profiles := dictSet pr.1 opponentId prof }

/-- `observe_round_outcome`: no-op when no pending context; otherwise feed the
bandit the reward and clear the slot. -/
def observe_round_outcome (e : Engine) (didCpuWinRound : Bool) : Engine :=
  match e.lastContext with
  | none => e
  | some (_, _, ctx) =>
    { e with
      bandit := e.bandit.update ctx (if didCpuWinRound then 1 else -1)
      lastContext := none }

/-! ## Persistence (source lines 239-263) -/

/-- One profile of the persisted-state shape. -/
structure SavedProfile where
  bluff_rate : List (String × (ℚ × ℚ))
  call_rate : ℚ × ℚ
  small_raise_pref : ℚ × ℚ
deriving DecidableEq, Repr

/-- The persisted-state shape (the bandit matrix and vector are stored
directly; the source's list round trip through `tolist`/`np.array` is
lossless for well-shaped data). -/
structure SavedState where
  A : Matrix (Fin 9) (Fin 9) ℚ
  b : Fin 9 → ℚ
  profiles : List (String × SavedProfile)

/-- Serialization of one profile in `state()`. -/
def saveProfile (p : OpponentProfile) : SavedProfile :=
  { bluff_rate := p.bluff_rate.map fun kv => (kv.1, (kv.2.alpha, kv.2.beta))
    call_rate := (p.call_rate.alpha, p.call_rate.beta)
    small_raise_pref := (p.small_raise_pref.alpha, p.small_raise_pref.beta) }

/-- `state()`. -/
def state (e : Engine) : SavedState :=
  { A := e.bandit.A
    b := e.bandit.b
    profiles := e.profiles.map fun kv => (kv.1, saveProfile kv.2) }

/-- One iteration of the `bluff_rate` loading loop in `load_state`:
`setdefault(k, BetaTracker(1,1))` then assign both counters. -/
def loadBluffPair (m : List (String × BetaTracker)) (kv : String × (ℚ × ℚ)) :
    List (String × BetaTracker) :=
  dictSet (dictSetdefault m kv.1 ⟨1, 1⟩) kv.1 ⟨kv.2.1, kv.2.2⟩

/-- The profile reconstructed by `load_state` for one saved entry: start from
`OpponentProfile()` (which carries the three default-category trackers), fold
the saved bluff pairs over it, then overwrite the two scalar trackers. -/
def buildProfile (data : SavedProfile) : OpponentProfile :=
  { bluff_rate := data.bluff_rate.foldl loadBluffPair defaultProfile.bluff_rate
    call_rate := ⟨data.call_rate.1, data.call_rate.2⟩
    small_raise_pref := ⟨data.small_raise_pref.1, data.small_raise_pref.2⟩ }

/-- `load_state`: replace the bandit matrix and vector wholesale, then store a
rebuilt profile for every saved opponent (existing profiles for opponents not
mentioned in the state are kept). -/
def load_state (e : Engine) (s : SavedState) : Engine :=
  { e with
    bandit := { e.bandit with A := s.A, b := s.b }
    profiles := s.profiles.foldl (fun m kv => dictSet m kv.1 (buildProfile kv.2)) e.profiles }

/-! ## The default claim grammar

The grammar itself is an external collaborator injected through `set_rules`
and is not among the provided source files; it is modelled from the spec. -/

/-- Modelled from the spec: the claims of the default grammar in ascending
order. Normal claims (high die, low die) come first in lexicographic order,
then the doubles, then the mexican claim (2,1) on top; the spec fixes that
(4,2) categorizes as "normal" and that the order is total with a strict
successor function. -/
def ascClaims : List Claim :=
  [(3, 1), (3, 2), (4, 1), (4, 2), (4, 3), (5, 1), (5, 2), (5, 3), (5, 4),
   (6, 1), (6, 2), (6, 3), (6, 4), (6, 5),
   (1, 1), (2, 2), (3, 3), (4, 4), (5, 5), (6, 6), (2, 1)]

/-- Modelled from the spec: the rank of a claim in the default order; claims
above the mexican claim continue as synthetic claims `(0, k)` so the
successor function has no fixed point and no reachable upper bound. -/
def claimIndex (c : Claim) : ℕ :=
  if c.1 = 0 then ascClaims.length + c.2 else ascClaims.indexOf c

/-- Modelled from the spec: the claim of a given rank. -/
def claimOfIndex (i : ℕ) : Claim :=
  if h : i < ascClaims.length then ascClaims.get ⟨i, h⟩ else (0, i - ascClaims.length)

/-- Modelled from the spec: `compareClaims` of the default grammar —
a signed rank difference (negative, zero or positive). -/
def defaultCompare (a b : Claim) : ℤ :=
  (claimIndex a : ℤ) - (claimIndex b : ℤ)

/-- Modelled from the spec: `nextHigherClaim` of the default grammar —
the successor in the rank order. -/
def defaultNext (c : Claim) : Claim :=
  claimOfIndex (claimIndex c + 1)

/-- Modelled from the spec: `categorizeClaim` of the default grammar —
the open-ended bluff-archetype label. -/
def defaultCategorize (c : Claim) : String :=
  if c = (2, 1) then "mexican" else if c.1 = c.2 then "double" else "normal"

/-- Modelled from the spec: `claimMatchesRoll` of the default grammar —
the truth predicate relating a claim to an actual roll. -/
def defaultMatches (c roll : Claim) : Bool :=
  c = canonicalClaimFromRoll roll

/-- A fresh engine wired to the default grammar. -/
def defaultEngine : Engine :=
  freshEngine defaultCompare defaultNext defaultCategorize defaultMatches

/-! ## Numeric-content equivalence of persisted states

Python dicts compare by key set and per-key value; insertion order is an
artifact. Two saved states have equal numeric content when the bandit matrix
and vector agree and the profile mappings agree as mappings. -/

/-- Equality of the numeric content of two saved profiles: same bluff-rate
category set with the same (alpha, beta) pairs, same call-rate pair, same
small-raise pair. -/
def profEqv (p q : SavedProfile) : Prop :=
  (∀ k, dlookup k p.bluff_rate = dlookup k q.bluff_rate) ∧
  p.call_rate = q.call_rate ∧ p.small_raise_pref = q.small_raise_pref

/-- Equality of the numeric content of two saved states. -/
def savedEqv (s t : SavedState) : Prop :=
  s.A = t.A ∧ s.b = t.b ∧
  ∀ id, (dlookup id s.profiles = none ∧ dlookup id t.profiles = none) ∨
    ∃ p q, dlookup id s.profiles = some p ∧ dlookup id t.profiles = some q ∧ profEqv p q

/-! ## Concrete inputs used by witnesses and counterexamples -/

/-- A saved profile listing no bluff-rate categories. -/
def emptySavedProfile : SavedProfile :=
  { bluff_rate := [], call_rate := (1, 2), small_raise_pref := (1, 1) }

/-- A saved state whose single profile lists no bluff-rate categories. -/
def savedStateC1 : SavedState :=
  { A := 1, b := fun _ => 0
    profiles := [("opp", emptySavedProfile)] }

/-- A saved state whose single profile lists no bluff-rate categories
(round-trip counterexample input). -/
def savedStateC2 : SavedState :=
  { A := 1, b := fun _ => 0
    profiles := [("opp", emptySavedProfile)] }

/-- A saved state of the shape produced by `state()`: the profile lists the
three default categories (plus one extra). -/
def savedStateC2w : SavedState :=
  { A := 1, b := fun _ => 0
    profiles := [("opp",
      { bluff_rate := [("mexican", (2, 5)), ("double", (1, 2)), ("normal", (4, 4)),
                       ("special", (2, 2))]
        call_rate := (3, 4), small_raise_pref := (1, 6) })] }

/-- Draws with the opening jump at list index 0 (one successor step). -/
def drawsC3 : Draws := ⟨0, 0, 0, 0, 0⟩

/-- An engine whose comparator never reports a higher truthful claim and
whose categorizer labels everything "special", with one known opponent whose
bluff-rate mapping is empty. -/
def engineC4 : Engine :=
  { defaultEngine with
    compareClaims := fun _ _ => 0
    categorizeClaim := fun _ => "special"
    profiles := [("opp", { bluff_rate := [], call_rate := ⟨1, 2⟩, small_raise_pref := ⟨1, 1⟩ })] }

/-- Draws for the C4 counterexample run. -/
def drawsC4 : Draws := ⟨0, 0, 1, 0, 0⟩

/-- An engine with pending context, for exercising `observe_round_outcome`. -/
def engineC5 : Engine :=
  { defaultEngine with lastContext := some ("opp", "CALL", fun _ => 0) }

/-- An engine whose bandit state makes the UCB scores tie (zero vector `b`,
zero exploration coefficient), so `choose` returns its first action. -/
def engineC6 : Engine :=
  { defaultEngine with
    compareClaims := fun _ _ => 0
    bandit := { alpha := 0, A := 1, b := fun _ => 0 } }

/-- Draws with a Thompson sample of 1 (the EV gate passes). -/
def drawsC6 : Draws := ⟨0, 0, 1, 0, 0⟩

/-- A profile whose call-rate mean is 0.7. -/
def profileC7 : OpponentProfile :=
  { bluff_rate := [], call_rate := ⟨7, 3⟩, small_raise_pref := ⟨1, 1⟩ }

/-- A tracker with both counters positive. -/
def trackerC8 : BetaTracker := ⟨1, 1⟩

/-- An engine with a profile lacking the "special" category, for the C4
amended-claim witness. -/
def engineC4w : Engine :=
  { defaultEngine with
    categorizeClaim := fun _ => "special"
    profiles := [("opp", { bluff_rate := [], call_rate := ⟨1, 2⟩, small_raise_pref := ⟨1, 1⟩ })] }

/-! ## Dictionary lemmas -/

theorem dlookup_append {α : Type} (k : String) (m l : List (String × α)) :
    dlookup k (m ++ l) =
      match dlookup k m with
      | some v => some v
      | none => dlookup k l := by
  induction m with
  | nil => rfl
  | cons hd tl ih =>
    by_cases h : hd.1 = k <;> simp [dlookup, h, ih]

theorem dlookup_dictSet {α : Type} (m : List (String × α)) (k : String) (v : α)
    (k' : String) :
    dlookup k' (dictSet m k v) = if k = k' then some v else dlookup k' m := by
  induction m with
  | nil =>
    simp [dictSet, dlookup]
  | cons hd tl ih =>
    obtain ⟨k₀, v₀⟩ := hd
    simp only [dictSet]
    by_cases h1 : k₀ = k
    · subst h1
      simp only [if_pos rfl]
      by_cases h2 : k₀ = k' <;> simp [dlookup, h2]
    · simp only [if_neg h1]
      by_cases h2 : k₀ = k'
      · have hkk : ¬ k = k' := fun he => h1 (he ▸ h2)
        simp [dlookup, h2, hkk]
      · simp [dlookup, h2, ih]

theorem dlookup_dictSetdefault {α : Type} (m : List (String × α)) (k : String) (v : α)
    (k' : String) :
    dlookup k' (dictSetdefault m k v) =
      if k = k' then some ((dlookup k m).getD v) else dlookup k' m := by
  unfold dictSetdefault
  cases hcase : dlookup k m with
  | some w =>
    simp only [Option.isSome_some, if_true, Option.getD_some]
    by_cases h : k = k'
    · subst h
      simp [hcase]
    · simp [h]
  | none =>
    simp only [Option.isSome_none, Bool.false_eq_true, if_false, Option.getD_none]
    rw [dlookup_append]
    by_cases h : k = k'
    · subst h
      simp [hcase, dlookup]
    · cases hc2 : dlookup k' m with
      | some w => simp [hc2, h]
      | none => simp [hc2, dlookup, h]

theorem dlookup_map {α β : Type} (f : α → β) (m : List (String × α)) (k : String) :
    dlookup k (m.map fun kv => (kv.1, f kv.2)) = (dlookup k m).map f := by
  induction m with
  | nil => rfl
  | cons hd tl ih =>
    by_cases h : hd.1 = k <;> simp [dlookup, h, ih]

theorem dlookup_eq_none_of_not_mem {α : Type} (m : List (String × α)) (k : String)
    (h : k ∉ m.map Prod.fst) : dlookup k m = none := by
  induction m with
  | nil => rfl
  | cons hd tl ih =>
    simp only [List.map_cons, List.mem_cons] at h
    push_neg at h
    have h1 : ¬ hd.1 = k := fun he => h.1 he.symm
    simp [dlookup, h1, ih h.2]

/-- Folding a per-entry store operation (whose lookup behaviour is
`if stored key then transformed value else previous`) over an association
list with distinct keys: lookups afterwards give the transformed stored value
when the key occurs, or fall through to the initial map. -/
theorem dlookup_foldl {α β : Type}
    (g : List (String × α) → String × β → List (String × α)) (f : β → α)
    (hg : ∀ m kv k, dlookup k (g m kv) = if kv.1 = k then some (f kv.2) else dlookup k m)
    (l : List (String × β)) (hnd : (l.map Prod.fst).Nodup)
    (m : List (String × α)) (k : String) :
    (∀ v, dlookup k l = some v → dlookup k (l.foldl g m) = some (f v)) ∧
    (dlookup k l = none → dlookup k (l.foldl g m) = dlookup k m) := by
  induction l generalizing m with
  | nil => exact ⟨fun v hv => Option.noConfusion hv, fun _ => rfl⟩
  | cons hd tl ih =>
    obtain ⟨k₀, v₀⟩ := hd
    simp only [List.map_cons, List.nodup_cons] at hnd
    have ihm := ih hnd.2 (g m (k₀, v₀))
    constructor
    · intro v hv
      by_cases h : k₀ = k
      · subst h
        have hnone : dlookup k₀ tl = none :=
          dlookup_eq_none_of_not_mem tl k₀ hnd.1
        have hv2 : v₀ = v := by
          simpa [dlookup] using hv
        subst hv2
        rw [List.foldl_cons, ihm.2 hnone, hg]
        simp
      · have hv2 : dlookup k tl = some v := by
          simpa [dlookup, h] using hv
        rw [List.foldl_cons]
        exact ihm.1 v hv2
    · intro hnone2
      by_cases h : k₀ = k
      · subst h
        simp [dlookup] at hnone2
      · have h2 : dlookup k tl = none := by
          simpa [dlookup, h] using hnone2
        rw [List.foldl_cons, ihm.2 h2, hg]
        simp [h]

/-! ## BetaTracker lemmas and C8 -/

theorem applyUpdates_counts (t : BetaTracker) (l : List Bool) :
    (t.applyUpdates l).alpha = t.alpha + (l.count true : ℚ) ∧
    (t.applyUpdates l).beta = t.beta + (l.count false : ℚ) := by
  induction l generalizing t with
  | nil => simp [BetaTracker.applyUpdates]
  | cons b bl ih =>
    have h := ih (t.update b)
    have e1 : t.applyUpdates (b :: bl) = (t.update b).applyUpdates bl := rfl
    rw [e1]
    cases b
    · constructor
      · rw [h.1]
        simp [BetaTracker.update, List.count_cons]
      · rw [h.2]
        simp [BetaTracker.update, List.count_cons]
        ring
    · constructor
      · rw [h.1]
        simp [BetaTracker.update, List.count_cons]
        ring
      · rw [h.2]
        simp [BetaTracker.update, List.count_cons]

theorem applyUpdates_total (t : BetaTracker) (l : List Bool) :
    (t.applyUpdates l).alpha + (t.applyUpdates l).beta =
      t.alpha + t.beta + (l.length : ℚ) := by
  induction l generalizing t with
  | nil => simp [BetaTracker.applyUpdates]
  | cons b bl ih =>
    have h := ih (t.update b)
    have e1 : t.applyUpdates (b :: bl) = (t.update b).applyUpdates bl := rfl
    rw [e1, h]
    cases b <;> simp [BetaTracker.update] <;> ring

theorem count_true_set_le (l : List Bool) (i : ℕ) :
    l.count true ≤ (l.set i true).count true := by
  induction l generalizing i with
  | nil => simp
  | cons b bl ih =>
    cases i with
    | zero => cases b <;> simp [List.count_cons]
    | succ j =>
      have := ih j
      cases b <;> simp [List.count_cons] <;> omega

/-- C8: after any sequence of updates from positive priors, the counters are
the priors plus the outcome counts and `mean` is exactly
`alpha / (alpha + beta)`; replacing any `update(false)` by `update(true)`
never decreases the final mean, a single `update(true)` never decreases the
mean, and a single `update(false)` never increases it. -/
theorem c8_tracker_mean_exact_and_monotone (t : BetaTracker) (l : List Bool)
    (ha : 0 < t.alpha) (hb : 0 < t.beta) :
    (t.applyUpdates l).alpha = t.alpha + (l.count true : ℚ) ∧
    (t.applyUpdates l).beta = t.beta + (l.count false : ℚ) ∧
    (t.applyUpdates l).mean =
      (t.applyUpdates l).alpha / ((t.applyUpdates l).alpha + (t.applyUpdates l).beta) ∧
    (∀ i, (t.applyUpdates l).mean ≤ (t.applyUpdates (l.set i true)).mean) ∧
    t.mean ≤ (t.update true).mean ∧
    (t.update false).mean ≤ t.mean := by
  have hc := applyUpdates_counts t l
  refine ⟨hc.1, hc.2, rfl, ?_, ?_, ?_⟩
  · intro i
    have hT : (t.applyUpdates l).alpha + (t.applyUpdates l).beta =
        t.alpha + t.beta + (l.length : ℚ) := applyUpdates_total t l
    have hT2 : (t.applyUpdates (l.set i true)).alpha + (t.applyUpdates (l.set i true)).beta =
        t.alpha + t.beta + (l.length : ℚ) := by
      rw [applyUpdates_total, List.length_set]
    have hpos : (0 : ℚ) < t.alpha + t.beta + (l.length : ℚ) := by
      have : (0 : ℚ) ≤ (l.length : ℚ) := Nat.cast_nonneg _
      linarith
    have hnum : (t.applyUpdates l).alpha ≤ (t.applyUpdates (l.set i true)).alpha := by
      rw [hc.1, (applyUpdates_counts t (l.set i true)).1]
      have := count_true_set_le l i
      have hcast : ((l.count true : ℚ)) ≤ ((l.set i true).count true : ℚ) := by
        exact_mod_cast this
      linarith
    unfold BetaTracker.mean
    rw [hT, hT2]
    exact div_le_div_of_le_of_nonneg hnum hpos.le
  · have h1 : (t.update true).mean = (t.alpha + 1) / (t.alpha + 1 + t.beta) := rfl
    have h2 : t.mean = t.alpha / (t.alpha + t.beta) := rfl
    rw [h1, h2, div_le_div_iff (by linarith) (by linarith)]
    nlinarith
  · have h1 : (t.update false).mean = t.alpha / (t.alpha + (t.beta + 1)) := rfl
    have h2 : t.mean = t.alpha / (t.alpha + t.beta) := rfl
    rw [h1, h2, div_le_div_iff (by linarith) (by linarith)]
    nlinarith

/-- C8 witness. -/
theorem c8_witness :
    (0 : ℚ) < trackerC8.alpha ∧ (0 : ℚ) < trackerC8.beta ∧
    ((trackerC8.applyUpdates [true, false]).alpha =
       trackerC8.alpha + (([true, false] : List Bool).count true : ℚ) ∧
     (trackerC8.applyUpdates [true, false]).beta =
       trackerC8.beta + (([true, false] : List Bool).count false : ℚ) ∧
     (trackerC8.applyUpdates [true, false]).mean =
       (trackerC8.applyUpdates [true, false]).alpha /
         ((trackerC8.applyUpdates [true, false]).alpha +
          (trackerC8.applyUpdates [true, false]).beta) ∧
     (∀ i, (trackerC8.applyUpdates [true, false]).mean ≤
        (trackerC8.applyUpdates (([true, false] : List Bool).set i true)).mean) ∧
     trackerC8.mean ≤ (trackerC8.update true).mean ∧
     (trackerC8.update false).mean ≤ trackerC8.mean) :=
  ⟨by decide, by decide,
   c8_tracker_mean_exact_and_monotone trackerC8 [true, false] (by decide) (by decide)⟩

/-! ## C7: pressure-claim escalation -/

/-- C7: the pressure claim always takes at least one successor step; with one
draw `r`, at least two steps are taken iff the call-rate mean exceeds 0.55
and `r < 0.50`, and exactly three iff the mean exceeds 0.65 and `r < 0.25`;
when the mean exceeds 0.65, the step count is 3 on `r < 0.25`, 2 on
`0.25 ≤ r < 0.50` and 1 on `0.50 ≤ r` — the correlated split of a single
uniform draw (probabilities 0.25, 0.25 and 0.50). -/
theorem c7_pressure_steps (e : Engine) (cur : Claim) (opp : OpponentProfile)
    (r : ℚ) (h0 : 0 ≤ r) (h1 : r < 1) :
    pickPressureClaim e cur true opp r =
      e.nextHigherClaim^[1 + pressureExtra opp.call_rate.mean r] cur ∧
    1 ≤ 1 + pressureExtra opp.call_rate.mean r ∧
    (2 ≤ 1 + pressureExtra opp.call_rate.mean r ↔
      opp.call_rate.mean > 0.55 ∧ r < 0.50) ∧
    (1 + pressureExtra opp.call_rate.mean r = 3 ↔
      opp.call_rate.mean > 0.65 ∧ r < 0.25) ∧
    (opp.call_rate.mean > 0.65 →
      ((1 + pressureExtra opp.call_rate.mean r = 3 ↔ r < 0.25) ∧
       (1 + pressureExtra opp.call_rate.mean r = 2 ↔ 0.25 ≤ r ∧ r < 0.50) ∧
       (1 + pressureExtra opp.call_rate.mean r = 1 ↔ 0.50 ≤ r))) := by
  have hpick : pickPressureClaim e cur true opp r =
      e.nextHigherClaim^[1 + pressureExtra opp.call_rate.mean r] cur := rfl
  by_cases hA : opp.call_rate.mean > 0.65 ∧ r < 0.25
  · have hB : opp.call_rate.mean > 0.55 ∧ r < 0.50 :=
      ⟨by linarith [hA.1], by linarith [hA.2]⟩
    have hs : pressureExtra opp.call_rate.mean r = 2 := by
      simp [pressureExtra, hA]
    refine ⟨hpick, by omega, ?_, ?_, ?_⟩
    · rw [hs]
      exact ⟨fun _ => hB, fun _ => by omega⟩
    · rw [hs]
      exact ⟨fun _ => hA, fun _ => rfl⟩
    · intro hp
      rw [hs]
      refine ⟨⟨fun _ => hA.2, fun _ => rfl⟩, ?_, ?_⟩
      · exact ⟨fun h => absurd h (by omega),
          fun hh => absurd hA.2 (not_lt.mpr hh.1)⟩
      · exact ⟨fun h => absurd h (by omega),
          fun hh => absurd hA.2 (by linarith)⟩
  · by_cases hB : opp.call_rate.mean > 0.55 ∧ r < 0.50
    · have hs : pressureExtra opp.call_rate.mean r = 1 := by
        simp [pressureExtra, hA, hB]
      refine ⟨hpick, by omega, ?_, ?_, ?_⟩
      · rw [hs]
        exact ⟨fun _ => hB, fun _ => by omega⟩
      · rw [hs]
        exact ⟨fun h => absurd h (by omega), fun h => absurd h hA⟩
      · intro hp
        have hr4 : ¬ r < 0.25 := fun hr => hA ⟨hp, hr⟩
        rw [hs]
        refine ⟨⟨fun h => absurd h (by omega), fun h => absurd h hr4⟩, ?_, ?_⟩
        · exact ⟨fun _ => ⟨not_lt.mp hr4, hB.2⟩, fun _ => rfl⟩
        · exact ⟨fun h => absurd h (by omega),
            fun hh => absurd hB.2 (not_lt.mpr hh)⟩
    · have hs : pressureExtra opp.call_rate.mean r = 0 := by
        simp [pressureExtra, hA, hB]
      refine ⟨hpick, by omega, ?_, ?_, ?_⟩
      · rw [hs]
        exact ⟨fun h => absurd h (by omega), fun h => absurd h hB⟩
      · rw [hs]
        exact ⟨fun h => absurd h (by omega), fun h => absurd h hA⟩
      · intro hp
        have hp5 : opp.call_rate.mean > 0.55 := by linarith
        have hr5 : 0.50 ≤ r := by
          by_contra hr
          exact hB ⟨hp5, not_le.mp hr⟩
        rw [hs]
        refine ⟨?_, ?_, ⟨fun _ => hr5, fun _ => rfl⟩⟩
        · exact ⟨fun h => absurd h (by omega),
            fun hh => absurd hr5 (not_le.mpr (by linarith))⟩
        · exact ⟨fun h => absurd h (by omega),
            fun hh => absurd hr5 (not_le.mpr hh.2)⟩

/-- C7 witness. -/
theorem c7_witness :
    (0 : ℚ) ≤ 0.1 ∧ (0.1 : ℚ) < 1 ∧
    (pickPressureClaim defaultEngine (3, 1) true profileC7 0.1 =
       defaultEngine.nextHigherClaim^[1 + pressureExtra profileC7.call_rate.mean 0.1] (3, 1) ∧
     1 ≤ 1 + pressureExtra profileC7.call_rate.mean 0.1 ∧
     (2 ≤ 1 + pressureExtra profileC7.call_rate.mean 0.1 ↔
       profileC7.call_rate.mean > 0.55 ∧ (0.1 : ℚ) < 0.50) ∧
     (1 + pressureExtra profileC7.call_rate.mean 0.1 = 3 ↔
       profileC7.call_rate.mean > 0.65 ∧ (0.1 : ℚ) < 0.25) ∧
     (profileC7.call_rate.mean > 0.65 →
       ((1 + pressureExtra profileC7.call_rate.mean 0.1 = 3 ↔ (0.1 : ℚ) < 0.25) ∧
        (1 + pressureExtra profileC7.call_rate.mean 0.1 = 2 ↔
          (0.25 : ℚ) ≤ 0.1 ∧ (0.1 : ℚ) < 0.50) ∧
        (1 + pressureExtra profileC7.call_rate.mean 0.1 = 1 ↔ (0.50 : ℚ) ≤ 0.1)))) :=
  ⟨by norm_num, by norm_num,
   c7_pressure_steps defaultEngine (3, 1) profileC7 0.1 (by norm_num) (by norm_num)⟩

/-! ## C5: observe_round_outcome -/

/-- C5: `observe_round_outcome` with an empty pending slot is the identity;
with a pending context it feeds the bandit `update(ctx, +1)` on a win and
`update(ctx, -1)` otherwise; and in both cases the pending slot is empty
afterwards. -/
theorem c5_round_outcome (e : Engine) (win : Bool) :
    (observe_round_outcome e win).lastContext = none ∧
    (e.lastContext = none → observe_round_outcome e win = e) ∧
    (∀ o a ctx, e.lastContext = some (o, a, ctx) →
      observe_round_outcome e win =
        { e with bandit := e.bandit.update ctx (if win then 1 else -1)
                 lastContext := none }) := by
  cases hc : e.lastContext with
  | none =>
    refine ⟨?_, fun _ => ?_, fun o a ctx h => ?_⟩
    · simp [observe_round_outcome, hc]
    · simp [observe_round_outcome, hc]
    · exact Option.noConfusion h
  | some triple =>
    obtain ⟨o₀, a₀, ctx₀⟩ := triple
    refine ⟨?_, fun h => ?_, fun o a ctx h => ?_⟩
    · simp [observe_round_outcome, hc]
    · exact Option.noConfusion h
    · simp only [Option.some.injEq, Prod.mk.injEq] at h
      obtain ⟨h1, h2, h3⟩ := h
      subst h1
      subst h2
      subst h3
      simp [observe_round_outcome, hc]

/-- C5 witness. -/
theorem c5_witness :
    observe_round_outcome engineC5 true =
      { engineC5 with
        bandit := engineC5.bandit.update (fun _ => 0) (if true then 1 else -1)
        lastContext := none } ∧
    observe_round_outcome defaultEngine true = defaultEngine :=
  ⟨(c5_round_outcome engineC5 true).2.2 "opp" "CALL" (fun _ => 0) rfl,
   (c5_round_outcome defaultEngine true).2.1 rfl⟩

/-! ## C3: the default-grammar opening scenario -/

/-- C3 counterexample: on a fresh engine with the default grammar and roll
(4,2) (truthful claim (4,2), category "normal"), the draw taking a single
successor step from the baseline (3,2) opens with (4,1), which is strictly
below the truthful claim — not strictly above it. -/
theorem c3_counterexample :
    (decide_action defaultEngine "P1" none (4, 2) 0 drawsC3).2 = Action.raise (4, 1) ∧
    defaultCompare (4, 1) (4, 2) < 0 := by
  exact ⟨rfl, by decide⟩

/-- C3 amended/corrected claim: the weak-truth opening applies 1 or 2
successor steps to the fixed baseline (3,2); for roll (4,2) every draw
produces (4,1) or (4,2), a claim strictly above the baseline but never
strictly above the truthful claim (4,2) — at most equal to it. -/
theorem c3_amended_opening (D : Draws) :
    ∃ c, (decide_action defaultEngine "P1" none (4, 2) 0 D).2 = Action.raise c ∧
      (c = (4, 1) ∨ c = (4, 2)) ∧
      defaultCompare c (4, 2) ≤ 0 ∧
      0 < defaultCompare c (3, 2) := by
  obtain ⟨j, rF, th, rT, rP⟩ := D
  fin_cases j
  · exact ⟨(4, 1), rfl, Or.inl rfl, by decide, by decide⟩
  · exact ⟨(4, 1), rfl, Or.inl rfl, by decide, by decide⟩
  · exact ⟨(4, 2), rfl, Or.inr rfl, by decide, by decide⟩

/-! ## Loading lemmas, C1 and C2 -/

theorem dlookup_loadBluffPair (m : List (String × BetaTracker)) (kv : String × (ℚ × ℚ))
    (k : String) :
    dlookup k (loadBluffPair m kv) =
      if kv.1 = k then some ⟨kv.2.1, kv.2.2⟩ else dlookup k m := by
  unfold loadBluffPair
  rw [dlookup_dictSet]
  by_cases h : kv.1 = k
  · simp [h]
  · rw [if_neg h, if_neg h, dlookup_dictSetdefault, if_neg h]

theorem mem_of_dlookup {α : Type} {m : List (String × α)} {k : String} {v : α}
    (h : dlookup k m = some v) : (k, v) ∈ m := by
  induction m with
  | nil => exact absurd h (by simp [dlookup])
  | cons hd tl ih =>
    obtain ⟨k₀, v₀⟩ := hd
    by_cases hk : k₀ = k
    · subst hk
      have h2 : some v₀ = some v := by
        simpa [dlookup] using h
      obtain rfl := Option.some.inj h2
      exact List.mem_cons_self _ _
    · have h2 : dlookup k tl = some v := by
        simpa [dlookup, hk] using h
      exact List.mem_cons_of_mem _ (ih h2)

/-- C1 counterexample: loading a state whose profile lists no bluff-rate
categories nevertheless reconstructs trackers for the three default
categories ("mexican" appears with its default prior (1,3) although the
loaded profile does not list it). -/
theorem c1_counterexample :
    (dlookup "opp" (load_state defaultEngine savedStateC1).profiles).map
        (fun p => dlookup "mexican" p.bluff_rate) = some (some ⟨1, 3⟩) ∧
    (dlookup "opp" savedStateC1.profiles).map
        (fun d => dlookup "mexican" d.bluff_rate) = some none :=
  ⟨rfl, rfl⟩

/-- C1 amended/corrected claim: the profile reconstructed by `load_state` has
bluff-rate trackers for the union of the loaded categories and the three
default categories (mexican, double, normal). Loaded (alpha, beta) pairs take
precedence; default categories not listed in the state appear with their
default priors rather than remaining absent. -/
theorem c1_amended_load_categories (e : Engine) (s : SavedState)
    (hnd : (s.profiles.map Prod.fst).Nodup)
    (id : String) (data : SavedProfile)
    (hid : dlookup id s.profiles = some data) :
    dlookup id (load_state e s).profiles = some (buildProfile data) ∧
    ((data.bluff_rate.map Prod.fst).Nodup →
      (∀ cat ab, dlookup cat data.bluff_rate = some ab →
        dlookup cat (buildProfile data).bluff_rate = some ⟨ab.1, ab.2⟩) ∧
      (∀ cat, dlookup cat data.bluff_rate = none →
        dlookup cat (buildProfile data).bluff_rate =
          dlookup cat defaultProfile.bluff_rate)) := by
  constructor
  · have hfl := dlookup_foldl (fun m kv => dictSet m kv.1 (buildProfile kv.2)) buildProfile
      (fun m kv k => dlookup_dictSet m kv.1 (buildProfile kv.2) k) s.profiles hnd
      e.profiles id
    exact hfl.1 data hid
  · intro hbd
    constructor
    · intro cat ab hab
      have hfl := dlookup_foldl loadBluffPair (fun ab => (⟨ab.1, ab.2⟩ : BetaTracker))
        (fun m kv k => dlookup_loadBluffPair m kv k) data.bluff_rate hbd
        defaultProfile.bluff_rate cat
      exact hfl.1 ab hab
    · intro cat hnone
      have hfl := dlookup_foldl loadBluffPair (fun ab => (⟨ab.1, ab.2⟩ : BetaTracker))
        (fun m kv k => dlookup_loadBluffPair m kv k) data.bluff_rate hbd
        defaultProfile.bluff_rate cat
      exact hfl.2 hnone

/-- C1 witness. -/
theorem c1_witness :
    dlookup "opp" (load_state defaultEngine savedStateC1).profiles =
      some (buildProfile emptySavedProfile) ∧
    ((emptySavedProfile.bluff_rate.map Prod.fst).Nodup →
      (∀ cat ab, dlookup cat emptySavedProfile.bluff_rate = some ab →
        dlookup cat (buildProfile emptySavedProfile).bluff_rate = some ⟨ab.1, ab.2⟩) ∧
      (∀ cat, dlookup cat emptySavedProfile.bluff_rate = none →
        dlookup cat (buildProfile emptySavedProfile).bluff_rate =
          dlookup cat defaultProfile.bluff_rate)) :=
  c1_amended_load_categories defaultEngine savedStateC1 (by decide) "opp"
    emptySavedProfile rfl

/-- C2 counterexample: a persisted-shape state whose profile lists no
bluff-rate categories does not round trip: after `load_state` then `state()`
the profile lists "mexican" (with the default prior) although the input
state did not, so the numeric content differs. -/
theorem c2_counterexample :
    (dlookup "opp" (state (load_state defaultEngine savedStateC2)).profiles).map
      (fun p => dlookup "mexican" p.bluff_rate) = some (some (1, 3)) ∧
    (dlookup "opp" savedStateC2.profiles).map
      (fun p => dlookup "mexican" p.bluff_rate) = some none ∧
    ¬ savedEqv (state (load_state defaultEngine savedStateC2)) savedStateC2 := by
  refine ⟨rfl, rfl, fun h => ?_⟩
  rcases h.2.2 "opp" with ⟨h1, h2⟩ | ⟨p, q, hp, hq, heq⟩
  · exact Option.some_ne_none _ h1
  · have hp2 := Option.some.inj hp
    have hq2 := Option.some.inj hq
    have h3 := heq.1 "mexican"
    rw [← hp2, ← hq2] at h3
    exact Option.some_ne_none _ h3

/-- C2 amended/corrected claim: the load-then-save round trip reproduces the
numeric content exactly for every state of the shape `state()` actually
produces — dict-unique keys and every profile listing the three default
categories — on an engine with no pre-existing profiles. (For states missing
a default category the round trip adds it, see the counterexample.) -/
theorem c2_amended_roundtrip (e : Engine) (s : SavedState)
    (hempty : e.profiles = [])
    (hnd : (s.profiles.map Prod.fst).Nodup)
    (hprof : ∀ kv ∈ s.profiles,
      (kv.2.bluff_rate.map Prod.fst).Nodup ∧
      (dlookup "mexican" kv.2.bluff_rate).isSome ∧
      (dlookup "double" kv.2.bluff_rate).isSome ∧
      (dlookup "normal" kv.2.bluff_rate).isSome) :
    savedEqv (state (load_state e s)) s := by
  refine ⟨rfl, rfl, fun id => ?_⟩
  have hstate : dlookup id (state (load_state e s)).profiles =
      (dlookup id (load_state e s).profiles).map saveProfile :=
    dlookup_map saveProfile _ id
  have hfl := dlookup_foldl (fun m kv => dictSet m kv.1 (buildProfile kv.2)) buildProfile
    (fun m kv k => dlookup_dictSet m kv.1 (buildProfile kv.2) k) s.profiles hnd
    e.profiles id
  cases hid : dlookup id s.profiles with
  | none =>
    left
    refine ⟨?_, rfl⟩
    have h1 : dlookup id (load_state e s).profiles = dlookup id e.profiles := hfl.2 hid
    rw [hstate, h1, hempty]
    rfl
  | some data =>
    right
    have h1 : dlookup id (load_state e s).profiles = some (buildProfile data) :=
      hfl.1 data hid
    refine ⟨saveProfile (buildProfile data), data, ?_, rfl, ?_⟩
    · rw [hstate, h1]
      rfl
    · obtain ⟨hbd, hm, hd2, hn⟩ := hprof (id, data) (mem_of_dlookup hid)
      have hfl2 := dlookup_foldl loadBluffPair (fun ab => (⟨ab.1, ab.2⟩ : BetaTracker))
        (fun m kv k2 => dlookup_loadBluffPair m kv k2) data.bluff_rate hbd
        defaultProfile.bluff_rate
      have hb1 : ∀ k ab, dlookup k data.bluff_rate = some ab →
          dlookup k (buildProfile data).bluff_rate = some ⟨ab.1, ab.2⟩ :=
        fun k => (hfl2 k).1
      have hb2 : ∀ k, dlookup k data.bluff_rate = none →
          dlookup k (buildProfile data).bluff_rate = dlookup k defaultProfile.bluff_rate :=
        fun k => (hfl2 k).2
      refine ⟨fun k => ?_, Prod.mk.eta, Prod.mk.eta⟩
      have hsave : dlookup k (saveProfile (buildProfile data)).bluff_rate =
          (dlookup k (buildProfile data).bluff_rate).map
            (fun t => (t.alpha, t.beta)) :=
        dlookup_map (fun t : BetaTracker => (t.alpha, t.beta))
          (buildProfile data).bluff_rate k
      rw [hsave]
      cases hk : dlookup k data.bluff_rate with
      | some ab =>
        rw [hb1 k ab hk]
        simp
      | none =>
        rw [hb2 k hk]
        have hk1 : ¬ ("mexican" = k) := by
          intro hh
          rw [hh, hk] at hm
          simp at hm
        have hk2 : ¬ ("double" = k) := by
          intro hh
          rw [hh, hk] at hd2
          simp at hd2
        have hk3 : ¬ ("normal" = k) := by
          intro hh
          rw [hh, hk] at hn
          simp at hn
        simp [defaultProfile, dlookup, hk1, hk2, hk3]

/-- C2 witness. -/
theorem c2_witness : savedEqv (state (load_state defaultEngine savedStateC2w)) savedStateC2w :=
  c2_amended_roundtrip defaultEngine savedStateC2w rfl (by decide) (by decide)

/-! ## The shape of decide_action results (responding to a claim) -/

/-- With a current claim present, `decide_action` produces one of exactly
three engine states: the fast-path state (pending slot cleared), the
committed-challenge state, or the raise state — the latter two with the
defaultdict-ensured profile table and the matching pending context. -/
theorem decide_action_some_cases (e : Engine) (opp : String) (cur myRoll : Claim)
    (ri : ℕ) (D : Draws) :
    (decide_action e opp (some cur) myRoll ri D).1 = { e with lastContext := none } ∨
    (decide_action e opp (some cur) myRoll ri D).1 =
      { e with profiles := (ensureProfile e.profiles opp).1
               lastContext := some (opp, "CALL",
                 (banditCtxPair e (ensureProfile e.profiles opp).2 cur myRoll
                   (bestTruthfulAbove e cur myRoll).isSome ri).1) } ∨
    (decide_action e opp (some cur) myRoll ri D).1 =
      { e with profiles := (ensureProfile e.profiles opp).1
               lastContext := some (opp, "RAISE",
                 (banditCtxPair e (ensureProfile e.profiles opp).2 cur myRoll
                   (bestTruthfulAbove e cur myRoll).isSome ri).2) } := by
  by_cases hfast : (bestTruthfulAbove e cur myRoll).isSome ∧ D.rFast < 0.65 + e.truth_bias
  · left
    simp only [decide_action]
    rw [dif_pos hfast]
  · by_cases hcall :
      (e.bandit.choose
        [("CALL", (banditCtxPair e (ensureProfile e.profiles opp).2 cur myRoll
            (bestTruthfulAbove e cur myRoll).isSome ri).1),
         ("RAISE", (banditCtxPair e (ensureProfile e.profiles opp).2 cur myRoll
            (bestTruthfulAbove e cur myRoll).isSome ri).2)]).1 = "CALL" ∧
      2 * D.thompson - 1 - e.call_risk_bias ≥ -0.15
    · right
      left
      simp only [decide_action]
      rw [dif_neg hfast, if_pos hcall]
    · right
      right
      simp only [decide_action]
      rw [dif_neg hfast, if_neg hcall]

/-- C10: responding to a claim never touches any existing tracker or the
bandit: the bandit, the four rule functions and the three knobs are
unchanged; the profile table is unchanged except possibly for appending a
fresh default profile for a previously unseen opponent id; and the pending
slot holds either nothing or a context for this opponent. -/
theorem c10_decide_action_frame (e : Engine) (opp : String) (cur myRoll : Claim)
    (ri : ℕ) (D : Draws) :
    (decide_action e opp (some cur) myRoll ri D).1.bandit = e.bandit ∧
    (decide_action e opp (some cur) myRoll ri D).1.compareClaims = e.compareClaims ∧
    (decide_action e opp (some cur) myRoll ri D).1.nextHigherClaim = e.nextHigherClaim ∧
    (decide_action e opp (some cur) myRoll ri D).1.categorizeClaim = e.categorizeClaim ∧
    (decide_action e opp (some cur) myRoll ri D).1.claimMatchesRoll = e.claimMatchesRoll ∧
    (decide_action e opp (some cur) myRoll ri D).1.call_risk_bias = e.call_risk_bias ∧
    (decide_action e opp (some cur) myRoll ri D).1.raise_bluff_cap = e.raise_bluff_cap ∧
    (decide_action e opp (some cur) myRoll ri D).1.truth_bias = e.truth_bias ∧
    ((decide_action e opp (some cur) myRoll ri D).1.profiles = e.profiles ∨
      (dlookup opp e.profiles = none ∧
       (decide_action e opp (some cur) myRoll ri D).1.profiles =
         e.profiles ++ [(opp, defaultProfile)])) ∧
    ((decide_action e opp (some cur) myRoll ri D).1.lastContext = none ∨
      ∃ a v, (decide_action e opp (some cur) myRoll ri D).1.lastContext = some (opp, a, v)) := by
  have hens : (ensureProfile e.profiles opp).1 = e.profiles ∨
      (dlookup opp e.profiles = none ∧
       (ensureProfile e.profiles opp).1 = e.profiles ++ [(opp, defaultProfile)]) := by
    unfold ensureProfile
    cases h : dlookup opp e.profiles with
    | some p => exact Or.inl rfl
    | none => exact Or.inr ⟨rfl, rfl⟩
  rcases decide_action_some_cases e opp cur myRoll ri D with h | h | h <;> rw [h]
  · exact ⟨rfl, rfl, rfl, rfl, rfl, rfl, rfl, rfl, Or.inl rfl, Or.inl rfl⟩
  · exact ⟨rfl, rfl, rfl, rfl, rfl, rfl, rfl, rfl, hens, Or.inr ⟨_, _, rfl⟩⟩
  · exact ⟨rfl, rfl, rfl, rfl, rfl, rfl, rfl, rfl, hens, Or.inr ⟨_, _, rfl⟩⟩

/-! ## C4: lazy defaults for unknown categories -/

/-- C4 counterexample: with the current claim categorized "special" — a
category absent from the known opponent's bluff-rate mapping — a
`decide_action` call reads the tracker through `dict.get` with a default but
does not create it: afterwards the category is still absent. -/
theorem c4_counterexample :
    engineC4.categorizeClaim (3, 1) = "special" ∧
    (dlookup "opp" engineC4.profiles).map
      (fun p => dlookup "special" p.bluff_rate) = some none ∧
    (dlookup "opp" ((decide_action engineC4 "opp" (some (3, 1)) (3, 1) 0 drawsC4).1).profiles).map
      (fun p => dlookup "special" p.bluff_rate) = some none := by
  refine ⟨rfl, rfl, ?_⟩
  rcases decide_action_some_cases engineC4 "opp" (3, 1) (3, 1) 0 drawsC4 with h | h | h <;>
    rw [h] <;> rfl

/-- C4 amended/corrected claim: looking up an unknown category never fails —
the value read is the transient default tracker with prior (1,1) — and
`observe_showdown` does create the (1,1)-prior tracker in the mapping before
updating it; but `decide_action`'s reads (`dict.get` with a default) leave
the mapping without the category. -/
theorem c4_amended_lazy_defaults (e : Engine) (opp : String) (prof : OpponentProfile)
    (cur myRoll roll : Claim) (ri : ℕ) (D : Draws) (cb : Bool)
    (hprof : dlookup opp e.profiles = some prof)
    (hmiss : dlookup (e.categorizeClaim cur) prof.bluff_rate = none) :
    bluffTrackerFor prof (e.categorizeClaim cur) = ⟨1, 1⟩ ∧
    dlookup opp ((decide_action e opp (some cur) myRoll ri D).1).profiles = some prof ∧
    (∃ prof2, dlookup opp (observe_showdown e opp cur roll cb).profiles = some prof2 ∧
      dlookup (e.categorizeClaim cur) prof2.bluff_rate =
        some (BetaTracker.update ⟨1, 1⟩ (!(e.claimMatchesRoll cur roll)))) := by
  have hens : ensureProfile e.profiles opp = (e.profiles, prof) := by
    unfold ensureProfile
    rw [hprof]
  refine ⟨?_, ?_, ?_⟩
  · unfold bluffTrackerFor
    rw [hmiss]
    rfl
  · rcases decide_action_some_cases e opp cur myRoll ri D with h | h | h <;> rw [h]
    · exact hprof
    · show dlookup opp (ensureProfile e.profiles opp).1 = some prof
      rw [hens]
      exact hprof
    · show dlookup opp (ensureProfile e.profiles opp).1 = some prof
      rw [hens]
      exact hprof
  · have hobs : observe_showdown e opp cur roll cb =
        { e with
            profiles := dictSet e.profiles opp
              (showdownProfile prof (e.categorizeClaim cur)
                (!(e.claimMatchesRoll cur roll))) } := by
      unfold observe_showdown
      rw [hens]
    refine ⟨showdownProfile prof (e.categorizeClaim cur)
      (!(e.claimMatchesRoll cur roll)), ?_, ?_⟩
    · rw [hobs]
      have h1 := dlookup_dictSet e.profiles opp
        (showdownProfile prof (e.categorizeClaim cur)
          (!(e.claimMatchesRoll cur roll))) opp
      rw [if_pos rfl] at h1
      exact h1
    · simp only [showdownProfile]
      rw [hmiss, dlookup_dictSet]
      simp

/-- C4 witness. -/
theorem c4_witness :
    bluffTrackerFor { bluff_rate := [], call_rate := ⟨1, 2⟩, small_raise_pref := ⟨1, 1⟩ }
      (engineC4w.categorizeClaim (3, 1)) = ⟨1, 1⟩ ∧
    dlookup "opp" ((decide_action engineC4w "opp" (some (3, 1)) (3, 1) 0 drawsC4).1).profiles =
      some { bluff_rate := [], call_rate := ⟨1, 2⟩, small_raise_pref := ⟨1, 1⟩ } ∧
    (∃ prof2, dlookup "opp" (observe_showdown engineC4w "opp" (3, 1) (3, 1) false).profiles =
        some prof2 ∧
      dlookup (engineC4w.categorizeClaim (3, 1)) prof2.bluff_rate =
        some (BetaTracker.update ⟨1, 1⟩ (!(engineC4w.claimMatchesRoll (3, 1) (3, 1))))) :=
  c4_amended_lazy_defaults engineC4w "opp"
    { bluff_rate := [], call_rate := ⟨1, 2⟩, small_raise_pref := ⟨1, 1⟩ }
    (3, 1) (3, 1) (3, 1) 0 drawsC4 false rfl rfl

/-! ## C6: the challenge EV gate -/

theorem ensureProfile_snd (m : List (String × OpponentProfile)) (id : String) :
    (ensureProfile m id).2 = (dlookup id m).getD defaultProfile := by
  unfold ensureProfile
  cases h : dlookup id m <;> rfl

/-- C6: once the engine has reached the bandit stage and the bandit chose
the challenge action, the call returns a challenge iff the Thompson-sampled
expected value `2·s − 1 − call_risk_bias` clears the −0.15 gate; on
committing, the pending context is (opponent, challenge, challenge-vector);
on gate failure the call falls through to the raise branch, returning a
raise with pending context (opponent, raise, raise-vector). -/
theorem c6_challenge_gate (e : Engine) (opp : String) (cur myRoll : Claim)
    (ri : ℕ) (D : Draws)
    (hfast : ¬((bestTruthfulAbove e cur myRoll).isSome ∧ D.rFast < 0.65 + e.truth_bias))
    (hchoice : (e.bandit.choose
        [("CALL", (banditCtxPair e (ensureProfile e.profiles opp).2 cur myRoll
            (bestTruthfulAbove e cur myRoll).isSome ri).1),
         ("RAISE", (banditCtxPair e (ensureProfile e.profiles opp).2 cur myRoll
            (bestTruthfulAbove e cur myRoll).isSome ri).2)]).1 = "CALL") :
    ((decide_action e opp (some cur) myRoll ri D).2 = Action.callBluff ↔
      2 * D.thompson - 1 - e.call_risk_bias ≥ -0.15) ∧
    (2 * D.thompson - 1 - e.call_risk_bias ≥ -0.15 →
      (decide_action e opp (some cur) myRoll ri D).1.lastContext =
        some (opp, "CALL", (banditCtxPair e (ensureProfile e.profiles opp).2 cur myRoll
          (bestTruthfulAbove e cur myRoll).isSome ri).1)) ∧
    (¬(2 * D.thompson - 1 - e.call_risk_bias ≥ -0.15) →
      (∃ c, (decide_action e opp (some cur) myRoll ri D).2 = Action.raise c) ∧
      (decide_action e opp (some cur) myRoll ri D).1.lastContext =
        some (opp, "RAISE", (banditCtxPair e (ensureProfile e.profiles opp).2 cur myRoll
          (bestTruthfulAbove e cur myRoll).isSome ri).2)) := by
  by_cases hg : 2 * D.thompson - 1 - e.call_risk_bias ≥ -0.15
  · have h1 : (decide_action e opp (some cur) myRoll ri D).2 = Action.callBluff ∧
        (decide_action e opp (some cur) myRoll ri D).1.lastContext =
          some (opp, "CALL", (banditCtxPair e (ensureProfile e.profiles opp).2 cur myRoll
            (bestTruthfulAbove e cur myRoll).isSome ri).1) := by
      simp only [decide_action]
      rw [dif_neg hfast, if_pos ⟨hchoice, hg⟩]
      exact ⟨rfl, rfl⟩
    exact ⟨⟨fun _ => hg, fun _ => h1.1⟩, fun _ => h1.2, fun h => absurd hg h⟩
  · have hne : ¬((e.bandit.choose
        [("CALL", (banditCtxPair e (ensureProfile e.profiles opp).2 cur myRoll
            (bestTruthfulAbove e cur myRoll).isSome ri).1),
         ("RAISE", (banditCtxPair e (ensureProfile e.profiles opp).2 cur myRoll
            (bestTruthfulAbove e cur myRoll).isSome ri).2)]).1 = "CALL" ∧
        2 * D.thompson - 1 - e.call_risk_bias ≥ -0.15) := fun hc => hg hc.2
    have h1 : (∃ c, (decide_action e opp (some cur) myRoll ri D).2 = Action.raise c) ∧
        (decide_action e opp (some cur) myRoll ri D).1.lastContext =
          some (opp, "RAISE", (banditCtxPair e (ensureProfile e.profiles opp).2 cur myRoll
            (bestTruthfulAbove e cur myRoll).isSome ri).2) := by
      simp only [decide_action]
      rw [dif_neg hfast, if_neg hne]
      exact ⟨⟨_, rfl⟩, rfl⟩
    refine ⟨⟨fun hcb => ?_, fun h => absurd h hg⟩, fun h => absurd h hg, fun _ => h1⟩
    obtain ⟨c, hc⟩ := h1.1
    rw [hcb] at hc
    exact Action.noConfusion hc

/-- C6 witness. -/
theorem c6_witness :
    (decide_action engineC6 "opp" (some (3, 1)) (4, 2) 0 drawsC6).2 = Action.callBluff := by
  have hchoice : (engineC6.bandit.choose
      [("CALL", (banditCtxPair engineC6 (ensureProfile engineC6.profiles "opp").2 (3, 1) (4, 2)
          (bestTruthfulAbove engineC6 (3, 1) (4, 2)).isSome 0).1),
       ("RAISE", (banditCtxPair engineC6 (ensureProfile engineC6.profiles "opp").2 (3, 1) (4, 2)
          (bestTruthfulAbove engineC6 (3, 1) (4, 2)).isSome 0).2)]).1 = "CALL" := by
    have hb : engineC6.bandit.b = 0 := rfl
    have ha : engineC6.bandit.alpha = 0 := rfl
    simp only [LinUCB.choose, hb, ha, Matrix.mulVec_zero, Matrix.zero_dotProduct,
      List.map, Rat.cast_zero, zero_mul, add_zero, zero_add]
    norm_num [argmaxFirst, argmaxAux]
  have h := c6_challenge_gate engineC6 "opp" (3, 1) (4, 2) 0 drawsC6 (by decide) hchoice
  exact h.1.mpr (by norm_num [drawsC6, engineC6, defaultEngine, freshEngine])

/-! ## C9: the design matrix stays symmetric positive-definite -/

theorem vecMulVec_posSemidef {d : ℕ} (x : Fin d → ℝ) :
    (Matrix.vecMulVec x x).PosSemidef := by
  have hs : star x = x := by
    funext i
    simp
  have hcol : Matrix.col Unit x = (Matrix.row Unit x).conjTranspose := by
    rw [Matrix.conjTranspose_row, hs]
  rw [Matrix.vecMulVec_eq Unit, hcol]
  exact Matrix.posSemidef_conjTranspose_mul_self _

/-- C9: starting from the identity initialization, after any finite sequence
of `update(x, reward)` calls with arbitrary real feature vectors and rewards,
the design matrix `A` is positive-definite and symmetric, hence invertible. -/
theorem c9_design_matrix_posdef (d : ℕ) (alpha : ℝ)
    (us : List ((Fin d → ℝ) × ℝ)) :
    ((LinUCB.init ℝ d alpha).runUpdates us).A.PosDef ∧
    ((LinUCB.init ℝ d alpha).runUpdates us).A.IsSymm ∧
    IsUnit ((LinUCB.init ℝ d alpha).runUpdates us).A := by
  have key : ∀ (l : LinUCB ℝ d), l.A.PosDef → ((l.runUpdates us).A).PosDef := by
    induction us with
    | nil => exact fun l h => h
    | cons u tl ih =>
      intro l h
      have h2 : (l.update u.1 u.2).A.PosDef := by
        unfold LinUCB.update
        exact Matrix.PosDef.add_posSemidef h (vecMulVec_posSemidef u.1)
      exact ih (l.update u.1 u.2) h2
  have hinit : (LinUCB.init ℝ d alpha).A.PosDef := by
    unfold LinUCB.init
    exact Matrix.PosDef.one
  have hpd := key (LinUCB.init ℝ d alpha) hinit
  refine ⟨hpd, ?_, hpd.isUnit⟩
  exact (Matrix.conjTranspose_eq_transpose_of_trivial _).symm.trans hpd.isHermitian

end SuddenDice
